import Mathlib

/-!
Shallow embedding of `fin_recipe_source.c`, a closed-form options pricing
library (Black-Scholes, generalized cost-of-carry (GBS) and the
Bjerksund-Stensland American approximation), over the real numbers.

C doubles are modelled as `ℝ`; the C `is_sane` predicate (finite, non-NaN)
is identically true on `ℝ` and is therefore dropped from the validity
predicates.  `pow(x, y)` with real exponent is modelled by `Real.rpow`.
Local variables of the C functions are either Lean `let` bindings or,
for the Bjerksund-Stensland intermediates that the claims talk about
(`Beta`, `BInfinity`, `B0`, `ht`, `I`), named top-level definitions.
-/

namespace C2O

noncomputable section

open Real Set Classical

/-! ### Domain Validator: the range macros of the C source -/

def VOLATILITY_MIN : ℝ := 0.0000001
def VOLATILITY_MAX : ℝ := 100.99999
def TIME_MIN : ℝ := 1.0 / (253.0 * 24.0)
def TIME_MAX : ℝ := 20.0
def INTEREST_RATE_MIN : ℝ := 0.0
def INTEREST_RATE_MAX : ℝ := 1000.0
def PRICE_MIN : ℝ := 0.000001
def PRICE_MAX : ℝ := 1000000000000.0
def STRIKE_MIN : ℝ := PRICE_MIN
def STRIKE_MAX : ℝ := PRICE_MAX
def COST_OF_CARRY_MIN : ℝ := -INTEREST_RATE_MAX
def COST_OF_CARRY_MAX : ℝ := INTEREST_RATE_MAX

/-- `assert_valid_price`: `is_sane(S) && S >= PRICE_MIN && S <= PRICE_MAX`. -/
def validPrice (S : ℝ) : Prop := PRICE_MIN ≤ S ∧ S ≤ PRICE_MAX

/-- `assert_valid_strike`. -/
def validStrike (X : ℝ) : Prop := STRIKE_MIN ≤ X ∧ X ≤ STRIKE_MAX

/-- `assert_valid_time`. -/
def validTime (T : ℝ) : Prop := TIME_MIN ≤ T ∧ T ≤ TIME_MAX

/-- `assert_valid_interest_rate`. -/
def validInterestRate (r : ℝ) : Prop := INTEREST_RATE_MIN ≤ r ∧ r ≤ INTEREST_RATE_MAX

/-- `assert_valid_cost_of_carry`. -/
def validCostOfCarry (b : ℝ) : Prop := COST_OF_CARRY_MIN ≤ b ∧ b ≤ COST_OF_CARRY_MAX

/-- `assert_valid_volatility`. -/
def validVolatility (v : ℝ) : Prop := VOLATILITY_MIN ≤ v ∧ v ≤ VOLATILITY_MAX

/-! ### Math primitives -/

/-- `static const double one_div_sqrt2pi`. -/
def one_div_sqrt2pi : ℝ := 0.39894228040143270286

/-- `double pow2(double n) { return n * n; }` -/
def pow2 (n : ℝ) : ℝ := n * n

/-- Coefficient `a1` of the rational cumulative-normal approximation in `cnd`. -/
def a1 : ℝ := 0.31938153

/-- Coefficient `a2`. -/
def a2 : ℝ := -0.356563782

/-- Coefficient `a3`. -/
def a3 : ℝ := 1.781477937

/-- Coefficient `a4`. -/
def a4 : ℝ := -1.821255978

/-- Coefficient `a5`. -/
def a5 : ℝ := 1.330274429

/-- `double cnd(double x)`: the cumulative normal distribution approximation,
translated line by line from the C source. -/
def cnd (x : ℝ) : ℝ :=
  let L := |x|
  let K := 1.0 / (1.0 + 0.2316419 * L)
  let a12345k := a1 * K + a2 * K * K + a3 * K * K * K + a4 * K * K * K * K +
    a5 * K * K * K * K * K
  let result := 1.0 - one_div_sqrt2pi * Real.exp (-pow2 L / 2.0) * a12345k
  if x < 0 then 1 - result else result

/-- The local `vst = v * sqrt(T)` computed identically by `blackscholes`,
`gbs` and `phi`. -/
def vst (v T : ℝ) : ℝ := v * Real.sqrt T

/-! ### European pricers -/

/-- `double blackscholes(int fCall, double S, double X, double T, double r, double v)`. -/
def blackscholes (fCall : Bool) (S X T r v : ℝ) : ℝ :=
  let vstv := vst v T
  let d1 := (Real.log (S / X) + (r + pow2 v / 2.0) * T) / vstv
  let d2 := d1 - vstv
  if fCall then S * cnd d1 - X * Real.exp (-r * T) * cnd d2
  else X * Real.exp (-r * T) * cnd (-d2) - S * cnd (-d1)

/-- `double gbs(int fCall, double S, double X, double T, double r, double b, double v)`. -/
def gbs (fCall : Bool) (S X T r b v : ℝ) : ℝ :=
  let vstv := vst v T
  let d1 := (Real.log (S / X) + (b + pow2 v / 2.0) * T) / vstv
  let d2 := d1 - vstv
  let ebrt := Real.exp ((b - r) * T)
  let ert := Real.exp (-r * T)
  if fCall then S * ebrt * cnd d1 - X * ert * cnd d2
  else X * ert * cnd (-d2) - S * ebrt * cnd (-d1)

/-! ### Bjerksund-Stensland American approximation -/

/-- `static double phi(double S, double T, double gamma_val, double H, double I,
double r, double b, double v)`. -/
def phi (S T gamma_val H I r b v : ℝ) : ℝ :=
  let vstv := vst v T
  let vv := v * v
  let lambda := (-r + gamma_val * b + 0.5 * gamma_val * (gamma_val - 1.0) * vv) * T
  let d := -(Real.log (S / H) + (b + (gamma_val - 0.5) * vv) * T) / vstv
  let kappa := 2.0 * b / vv + (2.0 * gamma_val - 1.0)
  Real.exp lambda * S ^ gamma_val *
    (cnd d - (I / S) ^ kappa * cnd (d - 2.0 * Real.log (I / S) / vstv))

/-- The local `Beta` of `BSAmericanCallApprox` (with `vv = v*v`):
`Beta = (0.5 - b / vv) + sqrt(pow2(b / vv - 0.5) + 2.0 * r / vv)`. -/
def amBeta (r b v : ℝ) : ℝ :=
  (0.5 - b / (v * v)) + Real.sqrt (pow2 (b / (v * v) - 0.5) + 2.0 * r / (v * v))

/-- The local `BInfinity = Beta / (Beta - 1.0) * X`. -/
def amBInfinity (r b v X : ℝ) : ℝ := amBeta r b v / (amBeta r b v - 1.0) * X

/-- The local `B0 = fmax(X, r / (r - b) * X)`. -/
def amB0 (r b X : ℝ) : ℝ := max X (r / (r - b) * X)

/-- The local `ht = -(b * T + 2.0 * v * sqrt(T)) * B0 / (BInfinity - B0)`. -/
def amHt (r b v X T : ℝ) : ℝ :=
  -(b * T + 2.0 * v * Real.sqrt T) * amB0 r b X / (amBInfinity r b v X - amB0 r b X)

/-- The local `I = B0 + (BInfinity - B0) * (1.0 - exp(ht))`. -/
def amI (r b v X T : ℝ) : ℝ :=
  amB0 r b X + (amBInfinity r b v X - amB0 r b X) * (1.0 - Real.exp (amHt r b v X T))

/-- `double BSAmericanCallApprox(double S, double X, double T, double r, double b, double v)`. -/
def BSAmericanCallApprox (S X T r b v : ℝ) : ℝ :=
  if b ≥ r then gbs true S X T r b v
  else
    let Beta := amBeta r b v
    let I := amI r b v X T
    if S ≥ I then S - X
    else
      let alpha := (I - X) * I ^ (-Beta)
      alpha * S ^ Beta
        - alpha * phi S T Beta I I r b v
        + phi S T 1.0 I I r b v
        - phi S T 1.0 X I r b v
        - X * phi S T 0.0 I I r b v
        + X * phi S T 0.0 X I r b v

/-- `double BSAmericanApprox(int fCall, double S, double X, double T, double r,
double b, double v)`.  Note that the C source validates `S`, `X`, `T`, `r`, `v`
but not `b` here. -/
def BSAmericanApprox (fCall : Bool) (S X T r b v : ℝ) : ℝ :=
  if fCall then BSAmericanCallApprox S X T r b v
  else BSAmericanCallApprox X S T (r - b) (-b) v

/-! ### Checked-error entry point (spec section 7)

The C source only has assertion-based validation; the spec (sections 4.1, 7, 9)
requires the reimplementation to surface a typed `InvalidParameter` failure
naming the offending argument instead. -/

/-- The economic parameters, used to identify which argument failed validation. -/
inductive ParamName where
  | price
  | strike
  | time
  | rate
  | costOfCarry
  | volatility
deriving DecidableEq

/-- Modelled from the spec: the error taxonomy of spec section 7
(`InvalidParameter` naming the offending argument, and `ComputationFault`),
which is absent from src/ (the C source terminates via `assert`). -/
inductive PricingError where
  | invalidParameter (arg : ParamName)
  | computationFault
deriving DecidableEq

/-- Modelled from the spec: the checked-error variant of `blackscholes`
required by spec sections 4.1 and 7; src/ only has the assertion-based
reference.  The checks and their order are exactly those of the C
`blackscholes` (price, strike, time, rate, volatility, then the two tighter
entry-point-specific asserts), each failed check becoming an
`InvalidParameter` error identifying the argument, surfaced before any
formula evaluation. -/
def blackScholesChecked (fCall : Bool) (S X T r v : ℝ) : Except PricingError ℝ :=
  if ¬ validPrice S then Except.error (PricingError.invalidParameter ParamName.price)
  else if ¬ validStrike X then Except.error (PricingError.invalidParameter ParamName.strike)
  else if ¬ validTime T then Except.error (PricingError.invalidParameter ParamName.time)
  else if ¬ validInterestRate r then Except.error (PricingError.invalidParameter ParamName.rate)
  else if ¬ validVolatility v then Except.error (PricingError.invalidParameter ParamName.volatility)
  else if ¬ (0 ≤ r) then Except.error (PricingError.invalidParameter ParamName.rate)
  else if ¬ (0 < v ∧ v ≤ 100) then Except.error (PricingError.invalidParameter ParamName.volatility)
  else Except.ok (blackscholes fCall S X T r v)

/-! ### Analysis helpers for `cnd`

`cndK`, `cndPoly` and `cndTail` name the subexpressions `K`, `a12345k` and
`exp(-L*L/2) * a12345k` of `cnd`; `cndQ` is `cndPoly k / k` and `cndPolyD`
the formal derivative of `cndPoly`. -/

/-- The subexpression `K = 1.0 / (1.0 + 0.2316419 * L)` of `cnd`. -/
def cndK (L : ℝ) : ℝ := 1.0 / (1.0 + 0.2316419 * L)

/-- The subexpression `a12345k` of `cnd`, as a function of `K`. -/
def cndPoly (k : ℝ) : ℝ :=
  a1 * k + a2 * (k * k) + a3 * (k * k * k) + a4 * (k * k * k * k) +
    a5 * (k * k * k * k * k)

/-- `cndPoly k` divided by `k`. -/
def cndQ (k : ℝ) : ℝ :=
  a1 + a2 * k + a3 * (k * k) + a4 * (k * k * k) + a5 * (k * k * k * k)

/-- The derivative of `cndPoly`. -/
def cndPolyD (k : ℝ) : ℝ :=
  a1 + 2 * a2 * k + 3 * a3 * (k * k) + 4 * a4 * (k * k * k) +
    5 * a5 * (k * k * k * k)

/-- The Gaussian-tail factor of `cnd`: `exp(-L*L/2) * cndPoly (cndK L)`. -/
def cndTail (L : ℝ) : ℝ := Real.exp (-(L * L) / 2) * cndPoly (cndK L)

/-! ### Basic facts about `cnd` -/

theorem cnd_eq (x : ℝ) :
    cnd x = if x < 0 then one_div_sqrt2pi * cndTail |x|
      else 1 - one_div_sqrt2pi * cndTail |x| := by
  simp only [cnd, cndTail, cndPoly, cndK, pow2]
  split_ifs with h <;> ring

theorem cnd_of_neg {x : ℝ} (h : x < 0) : cnd x = one_div_sqrt2pi * cndTail (-x) := by
  rw [cnd_eq, if_pos h, abs_of_neg h]

theorem cnd_of_nonneg {x : ℝ} (h : 0 ≤ x) :
    cnd x = 1 - one_div_sqrt2pi * cndTail x := by
  rw [cnd_eq, if_neg (not_lt.mpr h), abs_of_nonneg h]

theorem cndK_pos {L : ℝ} (hL : 0 ≤ L) : 0 < cndK L := by
  have h : (0:ℝ) < 1.0 + 0.2316419 * L := by nlinarith
  exact div_pos (by norm_num) h

theorem cndK_le_one {L : ℝ} (hL : 0 ≤ L) : cndK L ≤ 1 := by
  have h : (0:ℝ) < 1.0 + 0.2316419 * L := by nlinarith
  rw [cndK, div_le_one h]
  nlinarith

theorem cndQ_pos {k : ℝ} (h0 : 0 ≤ k) (h1 : k ≤ 1) : 0 < cndQ k := by
  simp only [cndQ, a1, a2, a3, a4, a5]
  nlinarith [sq_nonneg (k * k - 0.6846 * k), sq_nonneg (k - 0.1539), sq_nonneg k,
    sq_nonneg (k - 1)]

theorem cndPolyD_pos {k : ℝ} (h0 : 0 ≤ k) (h1 : k ≤ 1) : 0 < cndPolyD k := by
  simp only [cndPolyD, a1, a2, a3, a4, a5]
  nlinarith [sq_nonneg (k * k - 0.5477 * k), sq_nonneg (k - 0.1065), sq_nonneg k,
    sq_nonneg (k - 1)]

theorem cndPoly_eq_mul (k : ℝ) : cndPoly k = k * cndQ k := by
  simp only [cndPoly, cndQ]; ring

theorem cndPoly_pos {k : ℝ} (h0 : 0 < k) (h1 : k ≤ 1) : 0 < cndPoly k := by
  rw [cndPoly_eq_mul]; exact mul_pos h0 (cndQ_pos h0.le h1)

theorem cndPoly_nonneg {k : ℝ} (h0 : 0 ≤ k) (h1 : k ≤ 1) : 0 ≤ cndPoly k := by
  rw [cndPoly_eq_mul]; exact mul_nonneg h0 (cndQ_pos h0 h1).le

theorem cndPoly_le {k : ℝ} (h0 : 0 ≤ k) (h1 : k ≤ 1) : cndPoly k ≤ 2.100859467 := by
  simp only [cndPoly, a1, a2, a3, a4, a5]
  nlinarith [mul_nonneg (mul_nonneg h0 h0) h0, mul_nonneg h0 h0, sq_nonneg k,
    mul_nonneg (mul_nonneg (mul_nonneg h0 h0) h0) h0,
    mul_nonneg (mul_nonneg (mul_nonneg (mul_nonneg h0 h0) h0) h0) h0]

theorem exp_le_one_of_nonpos {x : ℝ} (h : x ≤ 0) : Real.exp x ≤ 1 := by
  rw [← Real.exp_zero]; exact Real.exp_le_exp.mpr h

theorem cndTail_pos {L : ℝ} (hL : 0 ≤ L) : 0 < cndTail L :=
  mul_pos (Real.exp_pos _) (cndPoly_pos (cndK_pos hL) (cndK_le_one hL))

theorem cndTail_le {L : ℝ} (hL : 0 ≤ L) : cndTail L ≤ 2.100859467 := by
  have he : Real.exp (-(L * L) / 2) ≤ 1 := exp_le_one_of_nonpos (by nlinarith)
  have hp := cndPoly_le (cndK_pos hL).le (cndK_le_one hL)
  have hp0 := cndPoly_nonneg (cndK_pos hL).le (cndK_le_one hL)
  calc cndTail L = Real.exp (-(L * L) / 2) * cndPoly (cndK L) := rfl
    _ ≤ 1 * 2.100859467 := mul_le_mul he hp hp0 zero_le_one
    _ = 2.100859467 := one_mul _

theorem ods_mul_bound : one_div_sqrt2pi * 2.100859467 < 1 := by
  rw [one_div_sqrt2pi]; norm_num

theorem cnd_pos (x : ℝ) : 0 < cnd x := by
  rcases lt_or_le x 0 with h | h
  · rw [cnd_of_neg h]
    exact mul_pos (by rw [one_div_sqrt2pi]; norm_num) (cndTail_pos (by linarith))
  · rw [cnd_of_nonneg h]
    have h1 : one_div_sqrt2pi * cndTail x ≤ one_div_sqrt2pi * 2.100859467 :=
      mul_le_mul_of_nonneg_left (cndTail_le h) (by rw [one_div_sqrt2pi]; norm_num)
    linarith [ods_mul_bound]

theorem cnd_lt_one (x : ℝ) : cnd x < 1 := by
  rcases lt_or_le x 0 with h | h
  · rw [cnd_of_neg h]
    have h1 : one_div_sqrt2pi * cndTail (-x) ≤ one_div_sqrt2pi * 2.100859467 :=
      mul_le_mul_of_nonneg_left (cndTail_le (by linarith))
        (by rw [one_div_sqrt2pi]; norm_num)
    linarith [ods_mul_bound]
  · rw [cnd_of_nonneg h]
    have h1 : 0 < one_div_sqrt2pi * cndTail x :=
      mul_pos (by rw [one_div_sqrt2pi]; norm_num) (cndTail_pos h)
    linarith

theorem cnd_add_neg {x : ℝ} (hx : x ≠ 0) : cnd x + cnd (-x) = 1 := by
  rcases hx.lt_or_lt with h | h
  · rw [cnd_of_neg h, cnd_of_nonneg (by linarith : (0:ℝ) ≤ -x)]
    ring
  · rw [cnd_of_nonneg h.le, cnd_of_neg (by linarith : -x < 0), neg_neg]
    ring

theorem cndTail_zero : cndTail 0 = cndPoly 1 := by
  have hK : cndK 0 = 1 := by rw [cndK]; norm_num
  rw [cndTail, hK]
  norm_num

theorem cnd_zero : cnd 0 = 1 - one_div_sqrt2pi * cndPoly 1 := by
  rw [cnd_of_nonneg le_rfl, cndTail_zero]

/-! ### Monotonicity of `cnd` -/

theorem hasDerivAt_cndK {L : ℝ} (hL : 0 ≤ L) :
    HasDerivAt cndK (-(0.2316419) * (cndK L * cndK L)) L := by
  have hden : (1.0 + 0.2316419 * L) ≠ 0 := by nlinarith
  have h1 : HasDerivAt (fun y : ℝ => 1.0 + 0.2316419 * y) 0.2316419 L := by
    simpa using ((hasDerivAt_id L).const_mul (0.2316419 : ℝ)).const_add (1.0 : ℝ)
  have h2 := h1.inv hden
  have h3 : HasDerivAt (fun y : ℝ => 1.0 / (1.0 + 0.2316419 * y))
      (-(0.2316419) * (cndK L * cndK L)) L := by
    have hfe : (fun y : ℝ => 1.0 / (1.0 + 0.2316419 * y)) =
        fun y : ℝ => (1.0 + 0.2316419 * y)⁻¹ := by
      funext y; ring
    rw [hfe]
    convert h2 using 1
    rw [cndK]
    field_simp
    ring
  exact h3

theorem hasDerivAt_cndPoly (k : ℝ) : HasDerivAt cndPoly (cndPolyD k) k := by
  have hid := hasDerivAt_id k
  have h2 : HasDerivAt (fun y : ℝ => y * y) (1 * k + k * 1) k := hid.mul hid
  have h3 : HasDerivAt (fun y : ℝ => y * y * y) ((1 * k + k * 1) * k + k * k * 1) k :=
    h2.mul hid
  have h4 : HasDerivAt (fun y : ℝ => y * y * y * y)
      (((1 * k + k * 1) * k + k * k * 1) * k + k * k * k * 1) k := h3.mul hid
  have h5 : HasDerivAt (fun y : ℝ => y * y * y * y * y)
      ((((1 * k + k * 1) * k + k * k * 1) * k + k * k * k * 1) * k +
        k * k * k * k * 1) k := h4.mul hid
  have h := ((((hid.const_mul a1).add (h2.const_mul a2)).add (h3.const_mul a3)).add
    (h4.const_mul a4)).add (h5.const_mul a5)
  have hfun : cndPoly = fun y : ℝ => a1 * y + a2 * (y * y) + a3 * (y * y * y) +
      a4 * (y * y * y * y) + a5 * (y * y * y * y * y) := rfl
  rw [hfun]
  convert h using 1
  rw [cndPolyD]
  ring

theorem hasDerivAt_cndTail {L : ℝ} (hL : 0 ≤ L) :
    HasDerivAt cndTail
      (Real.exp (-(L * L) / 2) * (-L) * cndPoly (cndK L) +
        Real.exp (-(L * L) / 2) *
          (cndPolyD (cndK L) * (-(0.2316419) * (cndK L * cndK L)))) L := by
  have h2 : HasDerivAt (fun y : ℝ => y * y) (1 * L + L * 1) L :=
    (hasDerivAt_id L).mul (hasDerivAt_id L)
  have hinner : HasDerivAt (fun y : ℝ => -(y * y) / 2) (-L) L := by
    have := h2.neg.div_const 2
    convert this using 1
    ring
  have hexp : HasDerivAt (fun y : ℝ => Real.exp (-(y * y) / 2))
      (Real.exp (-(L * L) / 2) * (-L)) L := hinner.exp
  have hcomp : HasDerivAt (fun y : ℝ => cndPoly (cndK y))
      (cndPolyD (cndK L) * (-(0.2316419) * (cndK L * cndK L))) L :=
    (hasDerivAt_cndPoly (cndK L)).comp L (hasDerivAt_cndK hL)
  have h := hexp.mul hcomp
  have hfun : cndTail = fun y : ℝ => Real.exp (-(y * y) / 2) * cndPoly (cndK y) := rfl
  rw [hfun]
  exact h

theorem cndTail_antitoneOn : AntitoneOn cndTail (Set.Ici 0) := by
  apply antitoneOn_of_deriv_nonpos (convex_Ici 0)
  · intro L hL
    exact (hasDerivAt_cndTail hL).continuousAt.continuousWithinAt
  · intro L hL
    rw [interior_Ici] at hL
    exact (hasDerivAt_cndTail hL.le).differentiableAt.differentiableWithinAt
  · intro L hL
    rw [interior_Ici] at hL
    rw [(hasDerivAt_cndTail hL.le).deriv]
    have hK0 := cndK_pos hL.le
    have hK1 := cndK_le_one hL.le
    have hP := cndPoly_nonneg hK0.le hK1
    have hPD := (cndPolyD_pos hK0.le hK1).le
    have hE := (Real.exp_pos (-(L * L) / 2)).le
    have hK2 : 0 ≤ cndK L * cndK L := mul_nonneg hK0.le hK0.le
    nlinarith [mul_nonneg (mul_nonneg hE hL.le) hP,
      mul_nonneg (mul_nonneg hE hPD) hK2]

theorem key_half : 2 * (one_div_sqrt2pi * cndPoly 1) < 1 := by
  rw [one_div_sqrt2pi, cndPoly, a1, a2, a3, a4, a5]
  norm_num

theorem cnd_monotone : Monotone cnd := by
  intro x y hxy
  rcases lt_or_le x 0 with hx | hx
  · rcases lt_or_le y 0 with hy | hy
    · rw [cnd_of_neg hx, cnd_of_neg hy]
      have h := cndTail_antitoneOn (Set.mem_Ici.mpr (by linarith : (0:ℝ) ≤ -y))
        (Set.mem_Ici.mpr (by linarith : (0:ℝ) ≤ -x)) (by linarith)
      exact mul_le_mul_of_nonneg_left h (by rw [one_div_sqrt2pi]; norm_num)
    · rw [cnd_of_neg hx, cnd_of_nonneg hy]
      have h1 : cndTail (-x) ≤ cndTail 0 :=
        cndTail_antitoneOn (Set.mem_Ici.mpr le_rfl)
          (Set.mem_Ici.mpr (by linarith : (0:ℝ) ≤ -x)) (by linarith)
      have h2 : cndTail y ≤ cndTail 0 :=
        cndTail_antitoneOn (Set.mem_Ici.mpr le_rfl) (Set.mem_Ici.mpr hy) hy
      have hods : (0:ℝ) ≤ one_div_sqrt2pi := by rw [one_div_sqrt2pi]; norm_num
      have h3 : one_div_sqrt2pi * cndTail (-x) ≤ one_div_sqrt2pi * cndTail 0 :=
        mul_le_mul_of_nonneg_left h1 hods
      have h4 : one_div_sqrt2pi * cndTail y ≤ one_div_sqrt2pi * cndTail 0 :=
        mul_le_mul_of_nonneg_left h2 hods
      have h5 : 2 * (one_div_sqrt2pi * cndTail 0) < 1 := by
        rw [cndTail_zero]; exact key_half
      linarith
  · rw [cnd_of_nonneg hx, cnd_of_nonneg (hx.trans hxy)]
    have h := cndTail_antitoneOn (Set.mem_Ici.mpr hx)
      (Set.mem_Ici.mpr (hx.trans hxy)) hxy
    have hods : (0:ℝ) ≤ one_div_sqrt2pi := by rw [one_div_sqrt2pi]; norm_num
    have := mul_le_mul_of_nonneg_left h hods
    linarith

/-! ### Claim theorems -/

/-- C1: for parameters inside the Domain Validator ranges with `b >= r`,
`BSAmericanCallApprox` returns exactly `gbs(Call, S, X, T, r, b, v)`:
the `b >= r` branch is a pure delegation. -/
theorem C1_call_delegates_to_gbs (S X T r b v : ℝ) (hS : validPrice S)
    (hX : validStrike X) (hT : validTime T) (hr : validInterestRate r)
    (hb : validCostOfCarry b) (hv : validVolatility v) (hbr : b ≥ r) :
    BSAmericanCallApprox S X T r b v = gbs true S X T r b v := by
  rw [BSAmericanCallApprox, if_pos hbr]

/-- Witness for C1 at the spec's example point
`S=50, X=45, T=1, r=0.08, b=0.08, v=0.25`. -/
theorem C1_call_delegates_to_gbs_witness :
    BSAmericanCallApprox 50 45 1 0.08 0.08 0.25 = gbs true 50 45 1 0.08 0.08 0.25 :=
  C1_call_delegates_to_gbs 50 45 1 0.08 0.08 0.25
    (by constructor <;> norm_num [validPrice, PRICE_MIN, PRICE_MAX])
    (by constructor <;> norm_num [validStrike, STRIKE_MIN, STRIKE_MAX, PRICE_MIN, PRICE_MAX])
    (by constructor <;> norm_num [validTime, TIME_MIN, TIME_MAX])
    (by constructor <;> norm_num [validInterestRate, INTEREST_RATE_MIN, INTEREST_RATE_MAX])
    (by constructor <;> norm_num [validCostOfCarry, COST_OF_CARRY_MIN, COST_OF_CARRY_MAX,
      INTEREST_RATE_MAX])
    (by constructor <;> norm_num [validVolatility, VOLATILITY_MIN, VOLATILITY_MAX])
    le_rfl

/-- C2: for parameters inside the Domain Validator ranges, the put branch of
`BSAmericanApprox` is exactly the Bjerksund-Stensland put-call transform
`BSAmericanCallApprox(X, S, T, r - b, -b, v)` and nothing else. -/
theorem C2_put_via_call_transform (S X T r b v : ℝ) (hS : validPrice S)
    (hX : validStrike X) (hT : validTime T) (hr : validInterestRate r)
    (hb : validCostOfCarry b) (hv : validVolatility v) :
    BSAmericanApprox false S X T r b v = BSAmericanCallApprox X S T (r - b) (-b) v := by
  simp [BSAmericanApprox]

/-- Witness for C2 at `S=50, X=45, T=1, r=0.1, b=0.05, v=0.25`. -/
theorem C2_put_via_call_transform_witness :
    BSAmericanApprox false 50 45 1 0.1 0.05 0.25 =
      BSAmericanCallApprox 45 50 1 (0.1 - 0.05) (-0.05) 0.25 :=
  C2_put_via_call_transform 50 45 1 0.1 0.05 0.25
    (by constructor <;> norm_num [validPrice, PRICE_MIN, PRICE_MAX])
    (by constructor <;> norm_num [validStrike, STRIKE_MIN, STRIKE_MAX, PRICE_MIN, PRICE_MAX])
    (by constructor <;> norm_num [validTime, TIME_MIN, TIME_MAX])
    (by constructor <;> norm_num [validInterestRate, INTEREST_RATE_MIN, INTEREST_RATE_MAX])
    (by constructor <;> norm_num [validCostOfCarry, COST_OF_CARRY_MIN, COST_OF_CARRY_MAX,
      INTEREST_RATE_MAX])
    (by constructor <;> norm_num [validVolatility, VOLATILITY_MIN, VOLATILITY_MAX])

/-- C4: the generalized cost-of-carry pricer degenerates to plain
Black-Scholes when the cost of carry equals the rate: for valid inputs and
either option kind, `gbs(isCall, S, X, T, r, r, v) = blackscholes(isCall, S, X, T, r, v)`
exactly (in real arithmetic). -/
theorem C4_gbs_reduces_to_blackscholes (fCall : Bool) (S X T r v : ℝ)
    (hS : validPrice S) (hX : validStrike X) (hT : validTime T)
    (hr : validInterestRate r) (hv : validVolatility v) :
    gbs fCall S X T r r v = blackscholes fCall S X T r v := by
  cases fCall <;>
    simp [gbs, blackscholes, sub_self, Real.exp_zero]

/-- Witness for C4 at `S=100, X=95, T=1, r=0.1, v=0.2`, call kind. -/
theorem C4_gbs_reduces_to_blackscholes_witness :
    gbs true 100 95 1 0.1 0.1 0.2 = blackscholes true 100 95 1 0.1 0.2 :=
  C4_gbs_reduces_to_blackscholes true 100 95 1 0.1 0.2
    (by constructor <;> norm_num [validPrice, PRICE_MIN, PRICE_MAX])
    (by constructor <;> norm_num [validStrike, STRIKE_MIN, STRIKE_MAX, PRICE_MIN, PRICE_MAX])
    (by constructor <;> norm_num [validTime, TIME_MIN, TIME_MAX])
    (by constructor <;> norm_num [validInterestRate, INTEREST_RATE_MIN, INTEREST_RATE_MAX])
    (by constructor <;> norm_num [validVolatility, VOLATILITY_MIN, VOLATILITY_MAX])

/-- C7: calling the checked-error Black-Scholes entry point with `T = 0`
(below `TIME_MIN`) fails with an `InvalidParameter` error identifying the
time argument (provided the checks that the C source runs before the time
check, price and strike, pass), and never reaches the formula. -/
theorem C7_time_zero_rejected (fCall : Bool) (S X r v : ℝ)
    (hS : validPrice S) (hX : validStrike X) :
    blackScholesChecked fCall S X 0 r v =
      Except.error (PricingError.invalidParameter ParamName.time) := by
  rw [blackScholesChecked, if_neg (not_not_intro hS), if_neg (not_not_intro hX), if_pos]
  simp only [validTime, TIME_MIN, TIME_MAX, not_and]
  intro h
  norm_num at h

/-- Witness for C7 at `S = X = 100`, `r = 0.1`, `v = 0.2`. -/
theorem C7_time_zero_rejected_witness :
    blackScholesChecked true 100 100 0 0.1 0.2 =
      Except.error (PricingError.invalidParameter ParamName.time) :=
  C7_time_zero_rejected true 100 100 0.1 0.2
    (by constructor <;> norm_num [validPrice, PRICE_MIN, PRICE_MAX])
    (by constructor <;> norm_num [validStrike, STRIKE_MIN, STRIKE_MAX, PRICE_MIN, PRICE_MAX])

/-- C8: on the early-exercise branch (valid ranges, `b < r`) the elasticity
`Beta` satisfies `Beta > 1`, hence `BInfinity = Beta/(Beta-1)*X > X` (no
division by zero in `Beta - 1`), and the divisor `r - b` of `B0` is nonzero. -/
theorem C8_beta_gt_one (X r b v : ℝ) (hX : validStrike X)
    (hr : validInterestRate r) (hb : validCostOfCarry b) (hv : validVolatility v)
    (hbr : b < r) :
    1 < amBeta r b v ∧ X < amBInfinity r b v X ∧ r - b ≠ 0 := by
  have hv0 : 0 < v := lt_of_lt_of_le (by norm_num [VOLATILITY_MIN]) hv.1
  have hvv : 0 < v * v := mul_pos hv0 hv0
  have hX0 : 0 < X := lt_of_lt_of_le (by norm_num [STRIKE_MIN, PRICE_MIN]) hX.1
  have hdiv : b / (v * v) < r / (v * v) := (div_lt_div_iff_of_pos_right hvv).mpr hbr
  have hbeta : 1 < amBeta r b v := by
    rw [amBeta]
    have h2r : 2.0 * r / (v * v) = 2 * (r / (v * v)) := by ring
    rw [h2r]
    have harg : (b / (v * v) + 0.5) ^ 2 < pow2 (b / (v * v) - 0.5) + 2 * (r / (v * v)) := by
      rw [pow2]; nlinarith
    have hs := Real.sqrt_lt_sqrt (sq_nonneg (b / (v * v) + 0.5)) harg
    rw [Real.sqrt_sq_eq_abs] at hs
    have habs : b / (v * v) + 0.5 ≤ |b / (v * v) + 0.5| := le_abs_self _
    linarith
  refine ⟨hbeta, ?_, sub_ne_zero.mpr (ne_of_gt hbr)⟩
  rw [amBInfinity]
  have h1 : 1 < amBeta r b v / (amBeta r b v - 1.0) := by
    rw [one_lt_div (by linarith)]
    linarith
  calc X = 1 * X := (one_mul X).symm
    _ < amBeta r b v / (amBeta r b v - 1.0) * X := by
        exact mul_lt_mul_of_pos_right h1 hX0

/-- Witness for C8 at `X=100, r=0.1, b=0.05, v=0.2`. -/
theorem C8_beta_gt_one_witness :
    1 < amBeta 0.1 0.05 0.2 ∧ (100:ℝ) < amBInfinity 0.1 0.05 0.2 100 ∧
      (0.1:ℝ) - 0.05 ≠ 0 :=
  C8_beta_gt_one 100 0.1 0.05 0.2
    (by constructor <;> norm_num [validStrike, STRIKE_MIN, STRIKE_MAX, PRICE_MIN, PRICE_MAX])
    (by constructor <;> norm_num [validInterestRate, INTEREST_RATE_MIN, INTEREST_RATE_MAX])
    (by constructor <;> norm_num [validCostOfCarry, COST_OF_CARRY_MIN, COST_OF_CARRY_MAX,
      INTEREST_RATE_MAX])
    (by constructor <;> norm_num [validVolatility, VOLATILITY_MIN, VOLATILITY_MAX])
    (by norm_num)

/-- C9: the public checks of `BSAmericanApprox` (which validate `S, X, T, r, v`
but not the relation of `b` to `r`) do not imply the callee's precondition:
there are inputs passing every check, with `b` inside the cost-of-carry range
and `b > r`, for which the put branch calls `BSAmericanCallApprox` with
transformed rate `r - b < 0`, outside that function's interest-rate domain;
and when `r = b` the put branch calls it with rate exactly `0` and
cost-of-carry `-b`, feeding the unguarded `r/(r-b)` division of `B0` with a
zero numerator. -/
theorem C9_put_transform_precondition_gap :
    (∃ S X T r b v : ℝ,
      validPrice S ∧ validStrike X ∧ validTime T ∧ validInterestRate r ∧
        validVolatility v ∧ validCostOfCarry b ∧ r < b ∧
        ¬ validInterestRate (r - b)) ∧
    (∀ S X T b v : ℝ,
      BSAmericanApprox false S X T b b v = BSAmericanCallApprox X S T 0 (-b) v) := by
  constructor
  · refine ⟨100, 100, 1, 1, 2, 0.2, ?_, ?_, ?_, ?_, ?_, ?_, ?_, ?_⟩
    · constructor <;> norm_num [validPrice, PRICE_MIN, PRICE_MAX]
    · constructor <;> norm_num [validStrike, STRIKE_MIN, STRIKE_MAX, PRICE_MIN, PRICE_MAX]
    · constructor <;> norm_num [validTime, TIME_MIN, TIME_MAX]
    · constructor <;> norm_num [validInterestRate, INTEREST_RATE_MIN, INTEREST_RATE_MAX]
    · constructor <;> norm_num [validVolatility, VOLATILITY_MIN, VOLATILITY_MAX]
    · constructor <;> norm_num [validCostOfCarry, COST_OF_CARRY_MIN, COST_OF_CARRY_MAX,
        INTEREST_RATE_MAX]
    · norm_num
    · simp only [validInterestRate, INTEREST_RATE_MIN, INTEREST_RATE_MAX, not_and]
      intro h
      norm_num at h
  · intro S X T b v
    rw [BSAmericanApprox]
    simp only [Bool.false_eq_true, if_false, sub_self]

/-- C10: under the documented domain (`v >= VOLATILITY_MIN`, `T >= TIME_MIN`)
the shared intermediate `vst = v * sqrt T` of `blackscholes`, `gbs` and `phi`
is strictly positive, so the divisions defining `d1` (and `d` in `phi`)
never divide by zero. -/
theorem C10_vst_pos (v T : ℝ) (hv : VOLATILITY_MIN ≤ v) (hT : TIME_MIN ≤ T) :
    0 < vst v T := by
  have hv0 : 0 < v := lt_of_lt_of_le (by norm_num [VOLATILITY_MIN]) hv
  have hT0 : 0 < T := lt_of_lt_of_le (by norm_num [TIME_MIN]) hT
  exact mul_pos hv0 (Real.sqrt_pos.mpr hT0)

/-- Witness for C10 at `v = 0.2`, `T = 1`. -/
theorem C10_vst_pos_witness : 0 < vst 0.2 1 :=
  C10_vst_pos 0.2 1 (by norm_num [VOLATILITY_MIN]) (by norm_num [TIME_MIN])

/-- C5 counterexample: at `x = 0` the claimed symmetry identity
`cnd x + cnd (-x) = 1` fails for the implemented rational approximation,
because `cnd 0 = 1 - one_div_sqrt2pi * (a1 + ... + a5)` is not exactly `1/2`. -/
theorem C5_cnd_symmetry_counterexample : cnd 0 + cnd (-0) ≠ 1 := by
  rw [neg_zero, cnd_zero, one_div_sqrt2pi, cndPoly, a1, a2, a3, a4, a5]
  norm_num

/-- C5 (amended): for every (finite) real `x`, `0 < cnd x < 1`; `cnd` is
non-decreasing; `cnd 0` is within `1e-7` of `0.5`; and `cnd x + cnd (-x) = 1`
exactly for every `x ≠ 0` (at `x = 0` the sum is `2 * cnd 0 ≠ 1`). -/
theorem C5_cnd_properties :
    (∀ x : ℝ, 0 < cnd x ∧ cnd x < 1) ∧ Monotone cnd ∧
      |cnd 0 - 0.5| < 0.0000001 ∧ ∀ x : ℝ, x ≠ 0 → cnd x + cnd (-x) = 1 := by
  refine ⟨fun x => ⟨cnd_pos x, cnd_lt_one x⟩, cnd_monotone, ?_,
    fun x hx => cnd_add_neg hx⟩
  rw [cnd_zero, abs_lt]
  constructor <;> · rw [one_div_sqrt2pi, cndPoly, a1, a2, a3, a4, a5]; norm_num

/-- Witness for the amended C5 symmetry clause at `x = 3`. -/
theorem C5_cnd_properties_witness : cnd 3 + cnd (-3) = 1 :=
  C5_cnd_properties.2.2.2 3 (by norm_num)

/-- The `d1` numerator vanishes at the C3 counterexample point
`S=1, X=2, T=2*ln 2, r=0, v=1`. -/
theorem c3_d1_zero :
    (Real.log ((1:ℝ) / 2) + (0 + pow2 1 / 2.0) * (2 * Real.log 2)) /
      vst 1 (2 * Real.log 2) = 0 := by
  have hlog : Real.log ((1:ℝ) / 2) = -Real.log 2 := by
    rw [one_div, Real.log_inv]
  rw [hlog, pow2]
  have hnum : -Real.log 2 + (0 + 1 * 1 / 2.0) * (2 * Real.log 2) = 0 := by ring
  rw [hnum, zero_div]

/-- C3 counterexample: at the valid input `S=1, X=2, T=2*ln 2, r=0, v=1`
(where `d1 = 0`), put-call parity fails for `blackscholes` both exactly and
beyond the claimed `1e-9` relative tolerance: the defect is
`2*cnd 0 - 1 ≈ 1.05e-9 > 1e-9 * |S - X*exp(-r*T)|`. -/
theorem C3_parity_counterexample :
    validPrice 1 ∧ validStrike 2 ∧ validTime (2 * Real.log 2) ∧
      validInterestRate 0 ∧ validVolatility 1 ∧ ((0:ℝ) < 1 ∧ (1:ℝ) ≤ 100) ∧
      |blackscholes true 1 2 (2 * Real.log 2) 0 1 -
          blackscholes false 1 2 (2 * Real.log 2) 0 1 -
          (1 - 2 * Real.exp (-0 * (2 * Real.log 2)))| >
        0.000000001 * |1 - 2 * Real.exp (-0 * (2 * Real.log 2))| := by
  refine ⟨?_, ?_, ?_, ?_, ?_, ?_, ?_⟩
  · constructor <;> norm_num [validPrice, PRICE_MIN, PRICE_MAX]
  · constructor <;> norm_num [validStrike, STRIKE_MIN, STRIKE_MAX, PRICE_MIN, PRICE_MAX]
  · simp only [validTime, TIME_MIN, TIME_MAX]
    constructor <;> nlinarith [Real.log_two_gt_d9, Real.log_two_lt_d9]
  · constructor <;> norm_num [validInterestRate, INTEREST_RATE_MIN, INTEREST_RATE_MAX]
  · constructor <;> norm_num [validVolatility, VOLATILITY_MIN, VOLATILITY_MAX]
  · constructor <;> norm_num
  · have hcall : blackscholes true 1 2 (2 * Real.log 2) 0 1 =
        1 * cnd 0 - 2 * Real.exp (-0 * (2 * Real.log 2)) *
          cnd (0 - vst 1 (2 * Real.log 2)) := by
      simp only [blackscholes, if_true]
      rw [c3_d1_zero]
    have hput : blackscholes false 1 2 (2 * Real.log 2) 0 1 =
        2 * Real.exp (-0 * (2 * Real.log 2)) *
          cnd (-(0 - vst 1 (2 * Real.log 2))) - 1 * cnd (-0) := by
      simp only [blackscholes, Bool.false_eq_true, if_false]
      rw [c3_d1_zero]
    have hσ : vst 1 (2 * Real.log 2) = Real.sqrt (2 * Real.log 2) := by
      rw [vst, one_mul]
    have hσpos : 0 < Real.sqrt (2 * Real.log 2) :=
      Real.sqrt_pos.mpr (mul_pos two_pos (Real.log_pos one_lt_two))
    have hexp0 : Real.exp (-0 * (2 * Real.log 2)) = 1 := by
      rw [show (-0:ℝ) * (2 * Real.log 2) = 0 by ring, Real.exp_zero]
    rw [hcall, hput, hexp0, hσ]
    have hsum : cnd (Real.sqrt (2 * Real.log 2)) +
        cnd (-Real.sqrt (2 * Real.log 2)) = 1 := cnd_add_neg (ne_of_gt hσpos)
    have hE : (0.000000001:ℝ) < 2 * cnd 0 - 1 := by
      rw [cnd_zero, one_div_sqrt2pi, cndPoly, a1, a2, a3, a4, a5]
      norm_num
    refine lt_of_lt_of_le ?_ (le_abs_self _)
    have habs : |(1:ℝ) - 2 * 1| = 1 := by norm_num
    rw [habs]
    have h0s : (0:ℝ) - Real.sqrt (2 * Real.log 2) = -Real.sqrt (2 * Real.log 2) := by
      ring
    rw [h0s, neg_neg, neg_zero]
    linarith

/-- C3 (amended): put-call parity holds exactly (in real arithmetic) for
every valid input of `blackscholes` for which the intermediates `d1` and
`d2` are nonzero; at `d1 = 0` or `d2 = 0` it fails by `2*cnd 0 - 1 ≈ 1.05e-9`,
which exceeds the claimed `1e-9` relative tolerance (see the counterexample). -/
theorem C3_put_call_parity (S X T r v : ℝ)
    (hS : validPrice S) (hX : validStrike X) (hT : validTime T)
    (hr : validInterestRate r) (hv : validVolatility v)
    (hr0 : 0 ≤ r) (hv0 : 0 < v) (hv100 : v ≤ 100)
    (hd1 : (Real.log (S / X) + (r + pow2 v / 2.0) * T) / vst v T ≠ 0)
    (hd2 : (Real.log (S / X) + (r + pow2 v / 2.0) * T) / vst v T - vst v T ≠ 0) :
    blackscholes true S X T r v - blackscholes false S X T r v =
      S - X * Real.exp (-r * T) := by
  have h1 := cnd_add_neg hd1
  have h2 := cnd_add_neg hd2
  simp only [blackscholes, if_true, Bool.false_eq_true, if_false]
  linear_combination S * h1 - X * Real.exp (-r * T) * h2

/-- Witness for the amended C3 at `S=100, X=100, T=1, r=0.05, v=0.2`. -/
theorem C3_put_call_parity_witness :
    blackscholes true 100 100 1 0.05 0.2 - blackscholes false 100 100 1 0.05 0.2 =
      100 - 100 * Real.exp (-0.05 * 1) :=
  C3_put_call_parity 100 100 1 0.05 0.2
    (by constructor <;> norm_num [validPrice, PRICE_MIN, PRICE_MAX])
    (by constructor <;> norm_num [validStrike, STRIKE_MIN, STRIKE_MAX, PRICE_MIN, PRICE_MAX])
    (by constructor <;> norm_num [validTime, TIME_MIN, TIME_MAX])
    (by constructor <;> norm_num [validInterestRate, INTEREST_RATE_MIN, INTEREST_RATE_MAX])
    (by constructor <;> norm_num [validVolatility, VOLATILITY_MIN, VOLATILITY_MAX])
    (by norm_num) (by norm_num) (by norm_num)
    (by rw [show (100:ℝ)/100 = 1 by norm_num, Real.log_one, vst, Real.sqrt_one, pow2]
        norm_num)
    (by rw [show (100:ℝ)/100 = 1 by norm_num, Real.log_one, vst, Real.sqrt_one, pow2]
        norm_num)

/-! ### Evaluation of the American approximation at the C6 failing input
`S=50, X=100, T=1, r=0.05, b=-5, v=0.2` (all inside the validated ranges,
`b < r`). -/

theorem cnd_small_of_le {x : ℝ} (hx : x ≤ -28.5) : cnd x ≤ 0.0021 := by
  have hx0 : x < 0 := by linarith
  rw [cnd_of_neg hx0]
  have hL : (0:ℝ) ≤ -x := by linarith
  have hK0 := cndK_pos hL
  have hK1 := cndK_le_one hL
  have hP := cndPoly_le hK0.le hK1
  have hP0 := cndPoly_nonneg hK0.le hK1
  have harg : -(-x * -x) / 2 ≤ -406 := by nlinarith [sq_nonneg (x + 28.5)]
  have hexp1 : Real.exp (-(-x * -x) / 2) ≤ Real.exp (-406) := Real.exp_le_exp.mpr harg
  have hexp2 : Real.exp (-406 : ℝ) ≤ 1 / 407 := by
    rw [Real.exp_neg]
    have h2 : (407:ℝ) ≤ Real.exp 406 := by
      have := Real.add_one_le_exp (406:ℝ)
      linarith
    have h3 : (Real.exp 406)⁻¹ ≤ ((407:ℝ))⁻¹ :=
      inv_anti₀ (by norm_num) h2
    simpa using h3
  have hT : cndTail (-x) ≤ 1 / 407 * 2.100859467 := by
    rw [cndTail]
    exact mul_le_mul (le_trans hexp1 hexp2) hP hP0 (by norm_num)
  calc one_div_sqrt2pi * cndTail (-x)
      ≤ one_div_sqrt2pi * (1 / 407 * 2.100859467) :=
        mul_le_mul_of_nonneg_left hT (by rw [one_div_sqrt2pi]; norm_num)
    _ ≤ 0.0021 := by rw [one_div_sqrt2pi]; norm_num

theorem amBeta_spot : amBeta 0.05 (-5) 0.2 = 125.5 + Real.sqrt 15752.75 := by
  rw [amBeta, pow2]
  norm_num

theorem sqrt15752_lo : (125.5:ℝ) < Real.sqrt 15752.75 := by
  have h := Real.sqrt_lt_sqrt (by norm_num : (0:ℝ) ≤ (125.5:ℝ) ^ 2)
    (by norm_num : ((125.5:ℝ)) ^ 2 < 15752.75)
  rwa [Real.sqrt_sq (by norm_num : (0:ℝ) ≤ (125.5:ℝ))] at h

theorem sqrt15752_hi : Real.sqrt 15752.75 < 125.51 := by
  have h := Real.sqrt_lt_sqrt (by norm_num : (0:ℝ) ≤ (15752.75:ℝ))
    (by norm_num : (15752.75:ℝ) < (125.51:ℝ) ^ 2)
  rwa [Real.sqrt_sq (by norm_num : (0:ℝ) ≤ (125.51:ℝ))] at h

theorem amB0_spot : amB0 0.05 (-5) 100 = 100 := by
  rw [amB0, max_eq_left]
  norm_num

theorem amBInf_bounds :
    100.399 < amBInfinity 0.05 (-5) 0.2 100 ∧
      amBInfinity 0.05 (-5) 0.2 100 < 100.4 := by
  have hlo := sqrt15752_lo
  have hhi := sqrt15752_hi
  rw [amBInfinity, amBeta_spot]
  have hden : (0:ℝ) < 125.5 + Real.sqrt 15752.75 - 1.0 := by linarith
  constructor
  · rw [div_mul_eq_mul_div, lt_div_iff₀ hden]
    nlinarith
  · rw [div_mul_eq_mul_div, div_lt_iff₀ hden]
    nlinarith

theorem amHt_ge : (1150:ℝ) ≤ amHt 0.05 (-5) 0.2 100 1 := by
  obtain ⟨hb1, hb2⟩ := amBInf_bounds
  rw [amHt, amB0_spot, Real.sqrt_one]
  have hd : (0:ℝ) < amBInfinity 0.05 (-5) 0.2 100 - 100 := by linarith
  rw [le_div_iff₀ hd]
  nlinarith

theorem amI_le : amI 0.05 (-5) 0.2 100 1 ≤ 50 := by
  obtain ⟨hb1, hb2⟩ := amBInf_bounds
  have hht := amHt_ge
  have hexp : (1151:ℝ) ≤ Real.exp (amHt 0.05 (-5) 0.2 100 1) := by
    have := Real.add_one_le_exp (amHt 0.05 (-5) 0.2 100 1)
    linarith
  rw [amI, amB0_spot]
  set binf := amBInfinity 0.05 (-5) 0.2 100 with hbinf
  set E := Real.exp (amHt 0.05 (-5) 0.2 100 1) with hEdef
  nlinarith [mul_nonneg (by linarith : (0:ℝ) ≤ binf - 100 - 0.399)
    (by linarith : (0:ℝ) ≤ E - 1151)]

theorem BSAmericanCallApprox_spot :
    BSAmericanCallApprox 50 100 1 0.05 (-5) 0.2 = -50 := by
  simp only [BSAmericanCallApprox]
  rw [if_neg (by norm_num : ¬ ((-5:ℝ) ≥ 0.05)),
    if_pos (show (50:ℝ) ≥ amI 0.05 (-5) 0.2 100 1 from by linarith [amI_le])]
  norm_num

theorem gbs_spot_lower : (-1:ℝ) < gbs true 50 100 1 0.05 (-5) 0.2 := by
  simp only [gbs, vst, pow2, if_true]
  rw [Real.sqrt_one]
  have hlog : Real.log ((50:ℝ) / 100) = -Real.log 2 := by
    rw [show (50:ℝ) / 100 = 2⁻¹ by norm_num, Real.log_inv]
  have hd2 : (Real.log ((50:ℝ) / 100) + (-5 + 0.2 * 0.2 / 2.0) * 1) / (0.2 * 1) -
      0.2 * 1 ≤ -28.5 := by
    rw [hlog]
    have hgoal : (-Real.log 2 + (-5 + 0.2 * 0.2 / 2.0) * 1) / (0.2 * 1) - 0.2 * 1 =
        -5 * Real.log 2 - 25.1 := by ring
    rw [hgoal]
    have := Real.log_two_gt_d9
    linarith
  have h2 := cnd_small_of_le hd2
  have h1 := cnd_pos ((Real.log ((50:ℝ) / 100) + (-5 + 0.2 * 0.2 / 2.0) * 1) / (0.2 * 1))
  have h2p := cnd_pos ((Real.log ((50:ℝ) / 100) + (-5 + 0.2 * 0.2 / 2.0) * 1) / (0.2 * 1) -
    0.2 * 1)
  have he1 := Real.exp_pos ((-5 - 0.05) * (1:ℝ))
  have he2 : Real.exp (-0.05 * (1:ℝ)) ≤ 1 := exp_le_one_of_nonpos (by norm_num)
  have he2p := Real.exp_pos (-0.05 * (1:ℝ))
  nlinarith [mul_pos (mul_pos (by norm_num : (0:ℝ) < 50) he1) h1,
    mul_le_mul he2 h2 h2p.le zero_le_one]

/-- C6: the claimed dominance `americanApprox >= gbs` for valid inputs with
`b < r` fails: at `S=50, X=100, T=1, r=0.05, b=-5, v=0.2` (all parameters
inside the Domain Validator ranges and `b < r`) the immediate-exercise branch
returns `S - X = -50`, a negative option price strictly below the European
value `gbs(Call, ...) > -1`. -/
theorem C6_american_below_european :
    BSAmericanApprox true 50 100 1 0.05 (-5) 0.2 < gbs true 50 100 1 0.05 (-5) 0.2 := by
  have hA : BSAmericanApprox true 50 100 1 0.05 (-5) 0.2 = -50 := by
    simp only [BSAmericanApprox, if_true]
    exact BSAmericanCallApprox_spot
  rw [hA]
  linarith [gbs_spot_lower]

end

end C2O
